import Mathlib

/-!
Verification of `bevy_gltf_draco` (glTF KHR_draco_mesh_compression decoder
extension for the bevy asset pipeline).

The Rust sources embedded here are `src/khr_draco_mesh_compression.rs`
(semantic classifier, extension parser, document synthesizer, mesh decoder
adapter) and `src/lib.rs` (the per-primitive handler integration point).
Machine integers become `Nat`; fallible operations become `Option`; a Rust
`panic!`/`unwrap` abort is modelled as the outermost `none`.  Byte buffers are
`List Nat`, JSON values are the `Json` inductive below.
-/

namespace BevyGltfDraco

/-- The `gltf` crate's `Semantic` enum: the structured vertex-attribute
semantic identifiers. -/
inductive Semantic where
  | Extras (name : String)
  | Positions
  | Normals
  | Tangents
  | Colors (set : Nat)
  | TexCoords (set : Nat)
  | Joints (set : Nat)
  | Weights (set : Nat)
deriving DecidableEq, Repr

/-- The `gltf` crate's `Checked<T>` validation wrapper: `Valid` data or
`Invalid`. -/
inductive Checked (α : Type) where
  | Valid (v : α)
  | Invalid
deriving DecidableEq, Repr

/-- `Checked::unwrap`: panics (modelled as `none`) on `Invalid`. -/
def Checked.unwrap? : Checked α → Option α
  | .Valid v => some v
  | .Invalid => none

/-- `p` is a leading segment of `cs` (Rust `str::starts_with`, char-level:
all patterns used by the source are ASCII, so char = byte positions agree). -/
def listStarts : List Char → List Char → Bool
  | [], _ => true
  | _ :: _, [] => false
  | p :: ps, c :: cs => p = c && listStarts ps cs

/-- Rust `str::parse::<u32>()`: optional leading `+`, then one or more ASCII
digits, value at most `u32::MAX`; anything else (empty, stray characters,
overflow) is a parse error. -/
def parseU32 (cs : List Char) : Option Nat :=
  let ds := match cs with
    | '+' :: rest => rest
    | other => other
  if ds = [] then none
  else if ds.all Char.isDigit then
    let n := ds.foldl (fun acc c => acc * 10 + (c.toNat - 48)) 0
    if n ≤ 4294967295 then some n else none
  else none

/-- `Semantic::checked` from `khr_draco_mesh_compression.rs` lines 20-49, at
the character-list level.  The match arms are checked in source order: exact
`"NORMAL"` / `"POSITION"` / `"TANGENT"`, then the `'_'`, `"COLOR_"`,
`"TEXCOORD_"`, `"JOINTS_"`, `"WEIGHTS_"` guards, else `Invalid`. -/
def checkedChars (cs : List Char) : Checked Semantic :=
  if cs = "NORMAL".data then .Valid .Normals
  else if cs = "POSITION".data then .Valid .Positions
  else if cs = "TANGENT".data then .Valid .Tangents
  else if listStarts ['_'] cs then .Valid (.Extras (String.mk (cs.drop 1)))
  else if listStarts "COLOR_".data cs then
    match parseU32 (cs.drop 6) with
    | some set => .Valid (.Colors set)
    | none => .Invalid
  else if listStarts "TEXCOORD_".data cs then
    match parseU32 (cs.drop 9) with
    | some set => .Valid (.TexCoords set)
    | none => .Invalid
  else if listStarts "JOINTS_".data cs then
    match parseU32 (cs.drop 7) with
    | some set => .Valid (.Joints set)
    | none => .Invalid
  else if listStarts "WEIGHTS_".data cs then
    match parseU32 (cs.drop 8) with
    | some set => .Valid (.Weights set)
    | none => .Invalid
  else .Invalid

/-- `<Semantic as SemanticCheck>::checked` on a string. -/
def Semantic.checked (s : String) : Checked Semantic :=
  checkedChars s.data

/-! ## JSON values and the extension record (`DracoExtensionValue`, serde) -/

/-- A JSON value (`serde_json::Value`); numbers as rationals. -/
inductive Json where
  | null
  | bool (b : Bool)
  | num (q : ℚ)
  | str (s : String)
  | arr (xs : List Json)
  | obj (fields : List (String × Json))

/-- Object field lookup (serde maps have unique keys; first match). -/
def getField (fields : List (String × Json)) (k : String) : Option Json :=
  (fields.find? (fun p => p.1 = k)).map (·.2)

/-- serde deserialization of a JSON number into `usize`: a non-negative
integer fitting 64 bits; floats and negatives are errors. -/
def asUsize : Json → Option Nat
  | .num q => if 0 ≤ q.num ∧ q.den = 1 ∧ q.num ≤ 18446744073709551615
      then some q.num.toNat else none
  | _ => none

/-- `DracoExtensionValue`: the deserialized extension record with the
`bufferView` index and the attribute-name → codec-index map. -/
structure DracoExtensionValue where
  buffer_view : Nat
  attributes : List (String × Nat)
deriving DecidableEq, Repr

/-- serde `Deserialize` for `DracoExtensionValue`: requires an object with a
`usize` field `"bufferView"` and an object field `"attributes"` mapping
strings to `usize`; unknown fields are ignored. -/
def deserializeDracoExtensionValue (j : Json) : Option DracoExtensionValue :=
  match j with
  | .obj fields =>
    match getField fields "bufferView" with
    | none => none
    | some bvj =>
      match asUsize bvj with
      | none => none
      | some bv =>
        match getField fields "attributes" with
        | none => none
        | some (.obj afs) =>
          match afs.mapM (fun p => (asUsize p.2).map (fun n => (p.1, n))) with
          | none => none
          | some attrs => some { buffer_view := bv, attributes := attrs }
        | some _ => none
  | _ => none

/-! ## `DracoSemanticLink` (the Attribute Link Map) -/

/-- Sorted-unique association list standing for `BTreeMap<usize, Semantic>`. -/
def btreeInsert (k : Nat) (v : Semantic) :
    List (Nat × Semantic) → List (Nat × Semantic)
  | [] => [(k, v)]
  | (k', v') :: rest =>
    if k < k' then (k, v) :: (k', v') :: rest
    else if k = k' then (k, v) :: rest
    else (k', v') :: btreeInsert k v rest

/-- `BTreeMap::get`. -/
def btreeGet : List (Nat × Semantic) → Nat → Option Semantic
  | [], _ => none
  | (k', v) :: rest, k => if k = k' then some v else btreeGet rest k

/-- `DracoSemanticLink`: codec attribute index → semantic, plus the
compressed payload's buffer-view index. -/
structure DracoSemanticLink where
  map : List (Nat × Semantic)
  buffer_view : Nat
deriving DecidableEq, Repr

/-- The loop body of `DracoSemanticLink::from_extension_value`: insert each
classified key under its codec index; `Semantic::checked(..).unwrap()`
panics (`none`) on an `Invalid` classification. -/
def buildLinkMap : List (String × Nat) → List (Nat × Semantic) →
    Option (List (Nat × Semantic))
  | [], m => some m
  | (s, i) :: rest, m =>
    match (Semantic.checked s).unwrap? with
    | none => none
    | some sem => buildLinkMap rest (btreeInsert i sem m)

/-- `DracoSemanticLink::from_extension_value` (lines 66-75); `none` models
the `unwrap` panic on an unrecognized attribute name. -/
def DracoSemanticLink.from_extension_value (value : DracoExtensionValue) :
    Option DracoSemanticLink :=
  (buildLinkMap value.attributes []).map
    (fun m => { map := m, buffer_view := value.buffer_view })

/-- `DracoExtension`: the parsed per-primitive extension. -/
structure DracoExtension where
  link : DracoSemanticLink
deriving DecidableEq, Repr

/-- `DracoExtension::parse` (lines 83-105) on a primitive's extension
records (`none` = the primitive has no extensions object).  Outer `none`
models a panic inside `from_extension_value`; `some none` models the Rust
`None` returns (extension absent or the record fails to deserialize);
`some (some ext)` models `Some(ext)`. -/
def parseResult (extensions : Option (List (String × Json))) :
    Option (Option DracoExtension) :=
  match extensions with
  | none => some none
  | some exts =>
    match exts.find? (fun p => p.1 = "KHR_draco_mesh_compression") with
    | none => some none
    | some p =>
      match deserializeDracoExtensionValue p.2 with
      | none => some none
      | some value =>
        match DracoSemanticLink.from_extension_value value with
        | none => none
        | some link => some (some { link := link })

/-! ## Accessor metadata and the decode configuration -/

/-- `gltf::accessor::DataType` (component types). -/
inductive DataType where
  | I8
  | U8
  | I16
  | U16
  | U32
  | F32
deriving DecidableEq, Repr

/-- Byte width of a component type (`DataType::size` in the gltf crate). -/
def DataType.size : DataType → Nat
  | .I8 => 1
  | .U8 => 1
  | .I16 => 2
  | .U16 => 2
  | .U32 => 4
  | .F32 => 4

/-- `gltf::accessor::Dimensions` (element arity). -/
inductive Dimensions where
  | Scalar
  | Vec2
  | Vec3
  | Vec4
  | Mat2
  | Mat3
  | Mat4
deriving DecidableEq, Repr

/-- `serde_json::Value::from(Option<Value>)`: `None` becomes JSON `null`. -/
def jsonOfOption : Option Json → Json
  | none => .null
  | some v => v

/-- An original (source document) accessor as read through the gltf crate
API: `data_type()`, `count()`, `dimensions()`, `min()`, `max()`. -/
structure Accessor where
  data_type : DataType
  count : Nat
  dimensions : Dimensions
  min : Option Json
  max : Option Json

/-- A source primitive as read through the gltf crate API: `indices()` and
`get(semantic)` (the semantic → accessor attribute map). -/
structure Primitive where
  indices : Option Accessor
  attributes : List (Semantic × Accessor)

/-- `Primitive::get`: the accessor bound to a semantic, if any. -/
def Primitive.get (p : Primitive) (s : Semantic) : Option Accessor :=
  (p.attributes.find? (fun x => x.1 = s)).map (·.2)

/-- Modelled from the spec: one attribute's byte layout inside the decoded
output buffer, as reported by the external `draco_decoder` crate's decode
configuration (§3 "Decode Configuration": byte offset and byte length per
attribute, in codec-index order).  The accessor method names `offset()` and
`lenght()` (sic) follow the source's calls. -/
structure MeshAttribute where
  offset : Nat
  lenght : Nat
deriving DecidableEq, Repr

/-- Modelled from the spec: the external `draco_decoder` crate's
`DracoDecodeConfig` (§3 "Decode Configuration"): the total estimated output
buffer size (`estimate_buffer_size()`) and the per-attribute byte layouts
(`attributes()`), in codec-index order.  The crate is outside this
repository, so the configuration is data at its interface boundary. -/
structure DracoDecodeConfig where
  estimateBufferSize : Nat
  attributes : List MeshAttribute
deriving DecidableEq, Repr

/-! ## The synthesized sub-document (`gltf::json::Root`) -/

/-- `gltf::json::buffer::Target`. -/
inductive Target where
  | ArrayBuffer
  | ElementArrayBuffer
deriving DecidableEq, Repr

/-- `gltf::json::Buffer` (the fields the synthesizer sets). -/
structure Buffer where
  byte_length : Nat
deriving DecidableEq, Repr

/-- `gltf::json::buffer::View` (the fields the synthesizer sets); `buffer`
is the index of the owning buffer in the root's buffer list. -/
structure BufferView where
  buffer : Nat
  byte_length : Nat
  byte_offset : Option Nat
  byte_stride : Option Nat
  target : Option Target
deriving DecidableEq, Repr

/-- `gltf::json::Accessor` (the fields the synthesizer sets); `buffer_view`
is an index into the root's buffer-view list. -/
structure JsonAccessor where
  buffer_view : Option Nat
  byte_offset : Option Nat
  count : Nat
  component_type : DataType
  type_ : Dimensions
  min : Option Json
  max : Option Json
  normalized : Bool

/-- `gltf::json::mesh::Mode`. -/
inductive Mode where
  | Points
  | Lines
  | LineLoop
  | LineStrip
  | Triangles
  | TriangleStrip
  | TriangleFan
deriving DecidableEq, Repr

/-- `gltf::json::mesh::Primitive` (the fields the synthesizer sets): the
semantic → accessor-index attribute map, the index-accessor index and the
topology mode. -/
structure JsonPrimitive where
  attributes : List (Semantic × Nat)
  indices : Option Nat
  mode : Mode

/-- `gltf::json::Mesh` (the fields the synthesizer sets). -/
structure JsonMesh where
  primitives : List JsonPrimitive

/-- `gltf::json::Root`: the synthesized document.  `root.push` appends to
the list of the pushed type and returns the new element's index there. -/
structure Root where
  buffers : List Buffer
  buffer_views : List BufferView
  accessors : List JsonAccessor
  meshes : List JsonMesh

/-! ## `DracoExtension::build_document` -/

/-- The index component type fix of lines 132-139: a 16-bit unsigned index
accessor whose count exceeds `u16::MAX` is promoted to 32-bit unsigned;
every other component type is kept as-is. -/
def promotedIndexType : DataType → Nat → DataType
  | .U16, count => if count > 65535 then .U32 else .U16
  | dt, _ => dt

/-- The attribute loop of lines 156-189: for each codec attribute index (in
ascending order) look up its semantic in the link map (`unwrap`: `none` on a
missing entry), look up the original accessor on the primitive (panic, so
`none`, when absent), and push one buffer-view and one accessor.  `idx` is
the codec index of the head attribute; the view and accessor pushed for it
land at index `idx + 1` of their lists (slot 0 holds the index stream's).
Returns the pushed views, the pushed accessors and the primitive's
attribute-map entries, in loop order. -/
def buildAttrs (linkMap : List (Nat × Semantic)) (prim : Primitive) :
    List MeshAttribute → Nat →
    Option (List BufferView × List JsonAccessor × List (Semantic × Nat))
  | [], _ => some ([], [], [])
  | a :: rest, idx =>
    match btreeGet linkMap idx with
    | none => none
    | some semantic =>
      match prim.get semantic with
      | none => none
      | some old_attr =>
        match buildAttrs linkMap prim rest (idx + 1) with
        | none => none
        | some (vs, accs, m) =>
          some
            ({ buffer := 0, byte_length := a.lenght, byte_offset := some a.offset,
               byte_stride := none, target := some .ArrayBuffer } :: vs,
             { buffer_view := some (idx + 1), byte_offset := none,
               count := old_attr.count, component_type := old_attr.data_type,
               type_ := old_attr.dimensions,
               min := some (jsonOfOption old_attr.min),
               max := some (jsonOfOption old_attr.max),
               normalized := false } :: accs,
             (semantic, idx + 1) :: m)

/-- `DracoExtension::build_document` (lines 107-212).  `none` models the
panics (`primitive.indices().unwrap()` on an index-less primitive, the link
map `unwrap`, the missing-accessor panic); on the Rust success path the
function always returns `Some(document)`.  The single buffer is sized to
`decode_config.estimate_buffer_size()`; buffer-view 0 covers the whole
buffer for the index stream; accessor 0 describes the indices with the
promoted component type. -/
def buildDocument (link : DracoSemanticLink) (primitive : Primitive)
    (decode_config : DracoDecodeConfig) : Option Root :=
  let buffer_length := decode_config.estimateBufferSize
  match primitive.indices with
  | none => none
  | some indices =>
    match buildAttrs link.map primitive decode_config.attributes 0 with
    | none => none
    | some (vs, accs, m) =>
      some
        { buffers := [{ byte_length := buffer_length }],
          buffer_views :=
            { buffer := 0, byte_length := buffer_length, byte_offset := some 0,
              byte_stride := none, target := some .ArrayBuffer } :: vs,
          accessors :=
            { buffer_view := some 0, byte_offset := none, count := indices.count,
              component_type := promotedIndexType indices.data_type indices.count,
              type_ := indices.dimensions, min := none, max := none,
              normalized := false } :: accs,
          meshes := [{ primitives :=
            [{ attributes := m, indices := some 0, mode := .Triangles }] }] }

/-! ## `DracoExtension::decode_mesh` and the handler integration point -/

/-- A source-document buffer-view as read through the gltf crate API:
owning buffer index (`buffer().index()`), `offset()`, `length()`. -/
structure SourceView where
  bufferIndex : Nat
  offset : Nat
  length : Nat
deriving DecidableEq, Repr

/-- Modelled from the spec: the result of the external decode function
(§6): a decode configuration plus the decoded raw byte buffer
(`result.config`, `result.data`). -/
structure DecodeResult where
  config : DracoDecodeConfig
  data : List Nat
deriving DecidableEq, Repr

/-- `DracoExtension::decode_mesh` (lines 214-230), with the opaque
`decode_mesh_with_config_sync` passed in as `decodeFn`.  Outer `none`
models the panics (`views().nth(..).unwrap()` on a bad view index, buffer
indexing, slicing past the buffer's end).  Otherwise the result pairs the
Rust return value with the list of emitted log messages: a decoder failure
returns `none` after logging `"draco decode fail!"`; success wraps the
single decoded buffer in a singleton vector. -/
def decodeMesh (decodeFn : List Nat → Option DecodeResult)
    (views : List SourceView) (link_buffer_view : Nat)
    (buffer_data : List (List Nat)) :
    Option (Option (DracoDecodeConfig × List (List Nat)) × List String) :=
  match views.get? link_buffer_view with
  | none => none
  | some view =>
    match buffer_data.get? view.bufferIndex with
    | none => none
    | some buf =>
      if view.offset + view.length ≤ buf.length then
        match decodeFn ((buf.drop view.offset).take view.length) with
        | none => some (none, ["draco decode fail!"])
        | some result => some (some (result.config, [result.data]), [])
      else none

/-- `GltfDracoDecoderExtensionHandler::on_gltf_primitive` (lib.rs lines
22-38): parse, decode, then synthesize; on success overwrite the output
slots, otherwise leave them untouched.  Outer `none` models a panic in any
step; otherwise the result carries the final `out_doc` and `out_data` slot
values and the emitted log messages. -/
def onGltfPrimitive (decodeFn : List Nat → Option DecodeResult)
    (extensions : Option (List (String × Json)))
    (views : List SourceView) (buffer_data : List (List Nat))
    (primitive : Primitive)
    (out_doc : Option Root) (out_data : Option (List (List Nat))) :
    Option (Option Root × Option (List (List Nat)) × List String) :=
  match parseResult extensions with
  | none => none
  | some none => some (out_doc, out_data, [])
  | some (some ext) =>
    match decodeMesh decodeFn views ext.link.buffer_view buffer_data with
    | none => none
    | some (none, log) => some (out_doc, out_data, log)
    | some (some (config, decode_data), log) =>
      match buildDocument ext.link primitive config with
      | none => none
      | some doc => some (some doc, some decode_data, log)

/-! ## Lemmas about the classifier -/

theorem listStarts_iff : ∀ (ps cs : List Char),
    listStarts ps cs = true ↔ ∃ rest, cs = ps ++ rest
  | [], cs => by simp [listStarts]
  | _ :: _, [] => by simp [listStarts]
  | p :: ps, c :: cs => by
    simp only [listStarts, Bool.and_eq_true, decide_eq_true_eq,
      listStarts_iff ps cs, List.cons_append, List.cons_eq_cons]
    constructor
    · rintro ⟨rfl, rest, rfl⟩
      exact ⟨rest, rfl, rfl⟩
    · rintro ⟨rest, rfl, h⟩
      exact ⟨rfl, rest, h⟩

/-- C4: the semantic classifier follows exactly the source's ordered rules:
the three exact matches; `'_'`-strings map to `Extras` of the remainder;
`"COLOR_"`- (resp. `"TEXCOORD_"`-, `"JOINTS_"`-, `"WEIGHTS_"`-) strings map
to the set-indexed semantic when the remainder parses as a `u32` and to
`Invalid` otherwise; every string matching none of the rules is `Invalid`;
and the four concrete examples behave as stated. -/
theorem C4_semantic_classifier :
    (Semantic.checked "POSITION" = .Valid .Positions
      ∧ Semantic.checked "NORMAL" = .Valid .Normals
      ∧ Semantic.checked "TANGENT" = .Valid .Tangents)
    ∧ (∀ cs : List Char, listStarts ['_'] cs = true →
        Semantic.checked (String.mk cs) = .Valid (.Extras (String.mk (cs.drop 1))))
    ∧ (∀ cs : List Char, listStarts "COLOR_".data cs = true →
        Semantic.checked (String.mk cs) =
          match parseU32 (cs.drop 6) with
          | some set => .Valid (.Colors set)
          | none => .Invalid)
    ∧ (∀ cs : List Char, listStarts "TEXCOORD_".data cs = true →
        Semantic.checked (String.mk cs) =
          match parseU32 (cs.drop 9) with
          | some set => .Valid (.TexCoords set)
          | none => .Invalid)
    ∧ (∀ cs : List Char, listStarts "JOINTS_".data cs = true →
        Semantic.checked (String.mk cs) =
          match parseU32 (cs.drop 7) with
          | some set => .Valid (.Joints set)
          | none => .Invalid)
    ∧ (∀ cs : List Char, listStarts "WEIGHTS_".data cs = true →
        Semantic.checked (String.mk cs) =
          match parseU32 (cs.drop 8) with
          | some set => .Valid (.Weights set)
          | none => .Invalid)
    ∧ (∀ cs : List Char, cs ≠ "POSITION".data → cs ≠ "NORMAL".data →
        cs ≠ "TANGENT".data →
        listStarts ['_'] cs = false → listStarts "COLOR_".data cs = false →
        listStarts "TEXCOORD_".data cs = false →
        listStarts "JOINTS_".data cs = false →
        listStarts "WEIGHTS_".data cs = false →
        Semantic.checked (String.mk cs) = .Invalid)
    ∧ (Semantic.checked "TEXCOORD_3" = .Valid (.TexCoords 3)
      ∧ Semantic.checked "_Foo" = .Valid (.Extras "Foo")
      ∧ Semantic.checked "COLOR_x" = .Invalid
      ∧ Semantic.checked "FOO" = .Invalid) := by
  refine ⟨⟨rfl, rfl, rfl⟩, ?_, ?_, ?_, ?_, ?_, ?_, ⟨rfl, rfl, rfl, rfl⟩⟩
  · intro cs h
    obtain ⟨rest, rfl⟩ := (listStarts_iff _ _).mp h
    rfl
  · intro cs h
    obtain ⟨rest, rfl⟩ := (listStarts_iff _ _).mp h
    rfl
  · intro cs h
    obtain ⟨rest, rfl⟩ := (listStarts_iff _ _).mp h
    rfl
  · intro cs h
    obtain ⟨rest, rfl⟩ := (listStarts_iff _ _).mp h
    rfl
  · intro cs h
    obtain ⟨rest, rfl⟩ := (listStarts_iff _ _).mp h
    rfl
  · intro cs h1 h2 h3 h4 h5 h6 h7 h8
    show checkedChars cs = .Invalid
    unfold checkedChars
    rw [if_neg h2, if_neg h1, if_neg h3]
    simp [h4, h5, h6, h7, h8]

/-- Witness for C4: the `Extras` rule applied at the concrete input
`"_Foo"`. -/
theorem C4_semantic_classifier_witness :
    Semantic.checked (String.mk ['_', 'F', 'o', 'o']) = .Valid (.Extras "Foo") :=
  C4_semantic_classifier.2.1 ['_', 'F', 'o', 'o'] (by decide)

/-! ## Lemmas about the attribute link map -/

theorem Checked.unwrap?_valid {α} {c : Checked α} {v : α}
    (h : c.unwrap? = some v) : c = .Valid v := by
  cases c with
  | Valid w =>
    simp only [Checked.unwrap?, Option.some.injEq] at h
    rw [h]
  | Invalid => simp [Checked.unwrap?] at h

theorem btreeGet_insert_self (k : Nat) (v : Semantic) :
    ∀ m : List (Nat × Semantic), btreeGet (btreeInsert k v m) k = some v
  | [] => by simp [btreeInsert, btreeGet]
  | (k', v') :: rest => by
    by_cases h1 : k < k'
    · simp [btreeInsert, h1, btreeGet]
    · by_cases h2 : k = k'
      · simp [btreeInsert, h1, h2, btreeGet]
      · simp [btreeInsert, h1, h2, btreeGet, btreeGet_insert_self k v rest]

theorem btreeGet_insert_ne (k k' : Nat) (v : Semantic) (h : k' ≠ k) :
    ∀ m : List (Nat × Semantic),
      btreeGet (btreeInsert k v m) k' = btreeGet m k'
  | [] => by simp [btreeInsert, btreeGet, h]
  | (k₀, v₀) :: rest => by
    by_cases h1 : k < k₀
    · simp [btreeInsert, h1, btreeGet, h]
    · by_cases h2 : k = k₀
      · subst h2
        simp [btreeInsert, h1, btreeGet, h]
      · simp [btreeInsert, h1, h2, btreeGet,
          btreeGet_insert_ne k k' v h rest]

theorem buildLinkMap_invalid :
    ∀ (l : List (String × Nat)) (m : List (Nat × Semantic)) (s : String)
      (i : Nat), (s, i) ∈ l → Semantic.checked s = .Invalid →
      buildLinkMap l m = none
  | [], _, _, _, h, _ => absurd h (List.not_mem_nil _)
  | (s₀, i₀) :: rest, m, s, i, h, hinv => by
    rcases List.mem_cons.mp h with heq | hmem
    · cases heq
      simp [buildLinkMap, hinv, Checked.unwrap?]
    · cases hc : (Semantic.checked s₀).unwrap? with
      | none => simp [buildLinkMap, hc]
      | some sem =>
        simp [buildLinkMap, hc,
          buildLinkMap_invalid rest (btreeInsert i₀ sem m) s i hmem hinv]

theorem buildLinkMap_total :
    ∀ (l : List (String × Nat)) (m : List (Nat × Semantic)),
      (∀ p ∈ l, ((Semantic.checked p.1).unwrap?).isSome) →
      (buildLinkMap l m).isSome
  | [], m, _ => by simp [buildLinkMap]
  | (s, i) :: rest, m, h => by
    have hs := h (s, i) (List.mem_cons_self ..)
    cases hc : (Semantic.checked s).unwrap? with
    | none => rw [hc] at hs; simp at hs
    | some sem =>
      simpa [buildLinkMap, hc] using
        buildLinkMap_total rest (btreeInsert i sem m)
          (fun p hp => h p (List.mem_cons_of_mem _ hp))

theorem buildLinkMap_keys :
    ∀ (l : List (String × Nat)) (m m' : List (Nat × Semantic)),
      buildLinkMap l m = some m' → ∀ i : Nat,
      (btreeGet m' i).isSome ↔ (i ∈ l.map Prod.snd ∨ (btreeGet m i).isSome)
  | [], m, m', h, i => by
    simp only [buildLinkMap, Option.some.injEq] at h
    subst h
    simp
  | (s, j) :: rest, m, m', h, i => by
    cases hc : (Semantic.checked s).unwrap? with
    | none => simp [buildLinkMap, hc] at h
    | some sem =>
      simp only [buildLinkMap, hc] at h
      have ih := buildLinkMap_keys rest (btreeInsert j sem m) m' h i
      by_cases hij : i = j
      · subst hij
        simp [ih, btreeGet_insert_self]
      · simp [ih, btreeGet_insert_ne j i sem hij, hij]

theorem buildLinkMap_mem :
    ∀ (l : List (String × Nat)) (m m' : List (Nat × Semantic)),
      buildLinkMap l m = some m' → ∀ (i : Nat) (sem : Semantic),
      btreeGet m' i = some sem →
      (∃ s, (s, i) ∈ l ∧ Semantic.checked s = .Valid sem) ∨
        btreeGet m i = some sem
  | [], m, m', h, i, sem, hget => by
    simp only [buildLinkMap, Option.some.injEq] at h
    subst h
    exact Or.inr hget
  | (s, j) :: rest, m, m', h, i, sem, hget => by
    cases hc : (Semantic.checked s).unwrap? with
    | none => simp [buildLinkMap, hc] at h
    | some semj =>
      simp only [buildLinkMap, hc] at h
      rcases buildLinkMap_mem rest _ m' h i sem hget with ⟨s', hmem, hval⟩ | hbase
      · exact Or.inl ⟨s', List.mem_cons_of_mem _ hmem, hval⟩
      · by_cases hij : i = j
        · subst hij
          rw [btreeGet_insert_self] at hbase
          have hv : semj = sem := by injection hbase
          subst hv
          exact Or.inl ⟨s, List.mem_cons_self .., Checked.unwrap?_valid hc⟩
        · rw [btreeGet_insert_ne j i semj hij] at hbase
          exact Or.inr hbase

/-- The concrete extension record of C5, as JSON. -/
def c5json : Json :=
  .obj [("bufferView", .num 2),
    ("attributes", .obj [("POSITION", .num 0), ("NORMAL", .num 1)])]

/-- The concrete extension record of C5, deserialized. -/
def c5value : DracoExtensionValue :=
  { buffer_view := 2, attributes := [("POSITION", 0), ("NORMAL", 1)] }

/-- C5: the record `{"bufferView": 2, "attributes": {"POSITION": 0,
"NORMAL": 1}}` deserializes to `c5value`, whose link map sends codec index 0
to `Positions` and 1 to `Normals` with payload reference 2; and in general a
successfully built link keeps the record's `bufferView` as payload
reference, and every entry of its map comes from classifying one of the
record's attribute-name keys, stored under that key's codec index. -/
theorem C5_parse_record :
    (deserializeDracoExtensionValue c5json = some c5value)
    ∧ (DracoSemanticLink.from_extension_value c5value =
        some { map := [(0, .Positions), (1, .Normals)], buffer_view := 2 })
    ∧ (∀ (v : DracoExtensionValue) (link : DracoSemanticLink),
        DracoSemanticLink.from_extension_value v = some link →
        link.buffer_view = v.buffer_view
        ∧ ∀ (i : Nat) (sem : Semantic), btreeGet link.map i = some sem →
            ∃ s, (s, i) ∈ v.attributes ∧ Semantic.checked s = .Valid sem) := by
  refine ⟨rfl, rfl, ?_⟩
  intro v link h
  simp only [DracoSemanticLink.from_extension_value, Option.map_eq_some'] at h
  obtain ⟨m, hm, hlink⟩ := h
  subst hlink
  refine ⟨rfl, fun i sem hget => ?_⟩
  rcases buildLinkMap_mem v.attributes [] m hm i sem hget with hfound | hbase
  · exact hfound
  · simp [btreeGet] at hbase

/-- Witness for C5: the general part applied at the concrete record
`c5value` and its link. -/
theorem C5_parse_record_witness :
    (DracoSemanticLink.mk [(0, .Positions), (1, .Normals)] 2).buffer_view
      = c5value.buffer_view :=
  (C5_parse_record.2.2 c5value
    (DracoSemanticLink.mk [(0, .Positions), (1, .Normals)] 2) rfl).1

/-- C7: building the attribute link map never silently drops a key: if any
attribute-name key of the record classifies as `Invalid`, the construction
aborts (the `unwrap` panic, modelled as `none`); if every key classifies to
a valid semantic, the construction succeeds and the resulting map holds an
entry exactly for each listed codec index. -/
theorem C7_link_map_construction (v : DracoExtensionValue) :
    (∀ (s : String) (i : Nat), (s, i) ∈ v.attributes →
      Semantic.checked s = .Invalid →
      DracoSemanticLink.from_extension_value v = none)
    ∧ ((∀ p ∈ v.attributes, ((Semantic.checked p.1).unwrap?).isSome) →
      ∃ link, DracoSemanticLink.from_extension_value v = some link
        ∧ ∀ i : Nat, (btreeGet link.map i).isSome ↔ i ∈ v.attributes.map Prod.snd) := by
  constructor
  · intro s i hmem hinv
    simp [DracoSemanticLink.from_extension_value,
      buildLinkMap_invalid v.attributes [] s i hmem hinv]
  · intro hall
    have hsome := buildLinkMap_total v.attributes [] hall
    cases hm : buildLinkMap v.attributes [] with
    | none => rw [hm] at hsome; simp at hsome
    | some m =>
      refine ⟨{ map := m, buffer_view := v.buffer_view }, ?_, fun i => ?_⟩
      · simp [DracoSemanticLink.from_extension_value, hm]
      · have := buildLinkMap_keys v.attributes [] m hm i
        simpa [btreeGet] using this

/-- Witness for C7: the fatal-abort half applied at a record with the
unrecognized key `"FOO"`. -/
theorem C7_link_map_construction_witness :
    DracoSemanticLink.from_extension_value
      { buffer_view := 0, attributes := [("FOO", 0)] } = none :=
  (C7_link_map_construction { buffer_view := 0, attributes := [("FOO", 0)] }).1
    "FOO" 0 (List.mem_cons_self ..) rfl

/-! ## Lemmas about the document synthesizer -/

theorem buildAttrs_lengths :
    ∀ (lm : List (Nat × Semantic)) (prim : Primitive)
      (attrs : List MeshAttribute) (idx : Nat) (vs : List BufferView)
      (accs : List JsonAccessor) (m : List (Semantic × Nat)),
      buildAttrs lm prim attrs idx = some (vs, accs, m) →
      vs.length = attrs.length ∧ accs.length = attrs.length
        ∧ m.length = attrs.length
  | lm, prim, [], idx, vs, accs, m, h => by
    simp only [buildAttrs, Option.some.injEq, Prod.mk.injEq] at h
    obtain ⟨h1, h2, h3⟩ := h
    subst h1; subst h2; subst h3
    simp
  | lm, prim, a :: rest, idx, vs, accs, m, h => by
    cases hg : btreeGet lm idx with
    | none => simp [buildAttrs, hg] at h
    | some semantic =>
      cases ho : prim.get semantic with
      | none => simp [buildAttrs, hg, ho] at h
      | some old_attr =>
        cases hr : buildAttrs lm prim rest (idx + 1) with
        | none => simp [buildAttrs, hg, ho, hr] at h
        | some triple =>
          obtain ⟨vs', accs', m'⟩ := triple
          simp only [buildAttrs, hg, ho, hr, Option.some.injEq,
            Prod.mk.injEq] at h
          obtain ⟨h1, h2, h3⟩ := h
          subst h1; subst h2; subst h3
          obtain ⟨l1, l2, l3⟩ :=
            buildAttrs_lengths lm prim rest (idx + 1) vs' accs' m' hr
          simp [l1, l2, l3]

theorem buildAttrs_views_bound :
    ∀ (lm : List (Nat × Semantic)) (prim : Primitive)
      (attrs : List MeshAttribute) (idx : Nat) (vs : List BufferView)
      (accs : List JsonAccessor) (m : List (Semantic × Nat)) (B : Nat),
      buildAttrs lm prim attrs idx = some (vs, accs, m) →
      (∀ a ∈ attrs, a.offset + a.lenght ≤ B) →
      ∀ v ∈ vs, v.buffer = 0 ∧ v.byte_offset.getD 0 + v.byte_length ≤ B
  | lm, prim, [], idx, vs, accs, m, B, h, _ => by
    simp only [buildAttrs, Option.some.injEq, Prod.mk.injEq] at h
    obtain ⟨h1, _, _⟩ := h
    subst h1
    intro v hv
    exact absurd hv (List.not_mem_nil v)
  | lm, prim, a :: rest, idx, vs, accs, m, B, h, hb => by
    cases hg : btreeGet lm idx with
    | none => simp [buildAttrs, hg] at h
    | some semantic =>
      cases ho : prim.get semantic with
      | none => simp [buildAttrs, hg, ho] at h
      | some old_attr =>
        cases hr : buildAttrs lm prim rest (idx + 1) with
        | none => simp [buildAttrs, hg, ho, hr] at h
        | some triple =>
          obtain ⟨vs', accs', m'⟩ := triple
          simp only [buildAttrs, hg, ho, hr, Option.some.injEq,
            Prod.mk.injEq] at h
          obtain ⟨h1, _, _⟩ := h
          subst h1
          intro v hv
          rcases List.mem_cons.mp hv with rfl | hv'
          · exact ⟨rfl, by
              simpa using hb a (List.mem_cons_self ..)⟩
          · exact buildAttrs_views_bound lm prim rest (idx + 1) vs' accs' m' B
              hr (fun x hx => hb x (List.mem_cons_of_mem _ hx)) v hv'

theorem buildAttrs_accessor :
    ∀ (lm : List (Nat × Semantic)) (prim : Primitive)
      (attrs : List MeshAttribute) (idx : Nat) (vs : List BufferView)
      (accs : List JsonAccessor) (m : List (Semantic × Nat)),
      buildAttrs lm prim attrs idx = some (vs, accs, m) →
      ∀ (i : Nat) (a : MeshAttribute), attrs.get? i = some a →
      ∃ sem old, btreeGet lm (idx + i) = some sem ∧ prim.get sem = some old
        ∧ accs.get? i = some
            { buffer_view := some (idx + i + 1), byte_offset := none,
              count := old.count, component_type := old.data_type,
              type_ := old.dimensions, min := some (jsonOfOption old.min),
              max := some (jsonOfOption old.max), normalized := false }
  | lm, prim, [], idx, vs, accs, m, h, i, a, hi => by
    simp at hi
  | lm, prim, a₀ :: rest, idx, vs, accs, m, h, i, a, hi => by
    cases hg : btreeGet lm idx with
    | none => simp [buildAttrs, hg] at h
    | some semantic =>
      cases ho : prim.get semantic with
      | none => simp [buildAttrs, hg, ho] at h
      | some old_attr =>
        cases hr : buildAttrs lm prim rest (idx + 1) with
        | none => simp [buildAttrs, hg, ho, hr] at h
        | some triple =>
          obtain ⟨vs', accs', m'⟩ := triple
          simp only [buildAttrs, hg, ho, hr, Option.some.injEq,
            Prod.mk.injEq] at h
          obtain ⟨_, h2, _⟩ := h
          subst h2
          cases i with
          | zero => exact ⟨semantic, old_attr, by simpa using hg, ho, rfl⟩
          | succ i' =>
            obtain ⟨sem, old, hsem, hold, hacc⟩ :=
              buildAttrs_accessor lm prim rest (idx + 1) vs' accs' m' hr i' a
                (by simpa using hi)
            refine ⟨sem, old, ?_, hold, ?_⟩
            · have : idx + (i' + 1) = idx + 1 + i' := by omega
              rw [this]
              exact hsem
            · have : idx + (i' + 1) + 1 = idx + 1 + i' + 1 := by omega
              rw [this]
              simpa using hacc

/-- Anatomy of a successful `build_document` run: the primitive has an
index accessor, the attribute loop succeeded, and the root is exactly the
assembled literal (one buffer, index view and accessor in slot 0 of their
lists, then the attribute views / accessors, one mesh with one triangle
primitive). -/
theorem buildDocument_some {link : DracoSemanticLink} {prim : Primitive}
    {cfg : DracoDecodeConfig} {root : Root}
    (h : buildDocument link prim cfg = some root) :
    ∃ indices vs accs m,
      prim.indices = some indices
      ∧ buildAttrs link.map prim cfg.attributes 0 = some (vs, accs, m)
      ∧ root.buffers = [{ byte_length := cfg.estimateBufferSize }]
      ∧ root.buffer_views =
          { buffer := 0, byte_length := cfg.estimateBufferSize,
            byte_offset := some 0, byte_stride := none,
            target := some .ArrayBuffer } :: vs
      ∧ root.accessors =
          { buffer_view := some 0, byte_offset := none,
            count := indices.count,
            component_type := promotedIndexType indices.data_type indices.count,
            type_ := indices.dimensions, min := none, max := none,
            normalized := false } :: accs
      ∧ root.meshes = [{ primitives :=
          [{ attributes := m, indices := some 0, mode := .Triangles }] }] := by
  cases hidx : prim.indices with
  | none => simp [buildDocument, hidx] at h
  | some indices =>
    cases hba : buildAttrs link.map prim cfg.attributes 0 with
    | none => simp [buildDocument, hidx, hba] at h
    | some triple =>
      obtain ⟨vs, accs, m⟩ := triple
      refine ⟨indices, vs, accs, m, rfl, rfl, ?_⟩
      simp only [buildDocument, hidx, hba, Option.some.injEq] at h
      subst h
      exact ⟨rfl, rfl, rfl, rfl⟩

/-! ## C1: index component-type promotion -/

/-- A primitive whose index accessor is 8-bit unsigned with 65536 indices:
the source's promotion rule (lines 134-139) only matches a `U16` original,
so this one keeps `U8`. -/
def c1prim : Primitive :=
  { indices := some
      { data_type := .U8, count := 65536, dimensions := .Scalar,
        min := none, max := none },
    attributes := [] }

/-- Counterexample to C1 as stated: with an original index accessor of 8-bit
unsigned type and count 65536 (which exceeds 65535), the synthesized index
accessor's component type is still `U8`, not the claimed 32-bit unsigned
type. -/
theorem C1_counterexample :
    ((buildDocument { map := [], buffer_view := 0 } c1prim
        { estimateBufferSize := 0, attributes := [] }).map
      (fun root => (root.accessors.get? 0).map JsonAccessor.component_type))
      = some (some .U8)
    ∧ 65535 < 65536 ∧ DataType.U8 ≠ DataType.U32 :=
  ⟨rfl, by decide, by decide⟩

theorem promotedIndexType_size (dt : DataType) (c : Nat) :
    dt.size ≤ (promotedIndexType dt c).size := by
  cases dt <;> by_cases h : c > 65535 <;>
    simp [promotedIndexType, h, DataType.size]

/-- C1 (amended): the synthesized index accessor's component type is
`promotedIndexType` of the original's type and count, which equals the
original component type whenever the count is at most 65535, is promoted to
the 32-bit unsigned type when the original type is the 16-bit unsigned type
and the count exceeds 65535 (only that case is promoted; any other original
type is kept even above 65535), and is never narrower than the original. -/
theorem C1_index_promotion (link : DracoSemanticLink) (prim : Primitive)
    (cfg : DracoDecodeConfig) (root : Root) (acc : Accessor)
    (hidx : prim.indices = some acc)
    (hroot : buildDocument link prim cfg = some root) :
    (root.accessors.get? 0).map JsonAccessor.component_type
      = some (promotedIndexType acc.data_type acc.count)
    ∧ (acc.count ≤ 65535 →
        promotedIndexType acc.data_type acc.count = acc.data_type)
    ∧ (acc.data_type = .U16 → 65535 < acc.count →
        promotedIndexType acc.data_type acc.count = .U32)
    ∧ (acc.data_type ≠ .U16 →
        promotedIndexType acc.data_type acc.count = acc.data_type)
    ∧ acc.data_type.size ≤ (promotedIndexType acc.data_type acc.count).size := by
  obtain ⟨indices, vs, accs, m, hi, _, _, _, haccs, _⟩ := buildDocument_some hroot
  rw [hidx] at hi
  injection hi with hind
  subst hind
  refine ⟨by rw [haccs]; rfl, ?_, ?_, ?_, ?_⟩
  · intro hc
    cases hdt : acc.data_type <;>
      simp [promotedIndexType, Nat.not_lt.mpr hc]
  · intro hdt hc
    rw [hdt]
    simp [promotedIndexType, hc]
  · intro hdt
    cases h : acc.data_type <;> simp_all [promotedIndexType]
  · exact promotedIndexType_size acc.data_type acc.count

/-- A primitive with a 16-bit index accessor of count 100000, as in the
spec's promotion example. -/
def c1prim16 : Primitive :=
  { indices := some
      { data_type := .U16, count := 100000, dimensions := .Scalar,
        min := none, max := none },
    attributes := [] }

/-- The document synthesized for `c1prim16` with an empty attribute list. -/
def c1root : Root :=
  (buildDocument { map := [], buffer_view := 0 } c1prim16
    { estimateBufferSize := 0, attributes := [] }).get (by rfl)

/-- Witness for C1 (amended): the promotion applied at a 16-bit original
index accessor of count 100000, which becomes 32-bit unsigned. -/
theorem C1_index_promotion_witness :
    ((c1root.accessors.get? 0).map JsonAccessor.component_type
      = some (promotedIndexType .U16 100000))
    ∧ (100000 ≤ 65535 → promotedIndexType DataType.U16 100000 = .U16)
    ∧ (DataType.U16 = .U16 → 65535 < 100000 →
        promotedIndexType DataType.U16 100000 = .U32)
    ∧ (DataType.U16 ≠ .U16 → promotedIndexType DataType.U16 100000 = .U16)
    ∧ DataType.U16.size ≤ (promotedIndexType .U16 100000).size :=
  C1_index_promotion { map := [], buffer_view := 0 } c1prim16
    { estimateBufferSize := 0, attributes := [] } c1root
    { data_type := .U16, count := 100000, dimensions := .Scalar,
      min := none, max := none }
    rfl (Option.some_get _).symm

/-! ## C2: shape of the synthesized document -/

/-- C2: a successful `build_document` run yields exactly one buffer whose
declared length is the decode configuration's total estimated size, exactly
N+1 buffer-views and N+1 accessors for N compressed attributes (index
stream + one per attribute), and — provided each attribute layout fits the
estimated size, which the spec trusts the decoder to guarantee — every
buffer-view points at that buffer and satisfies
`offset + length ≤ buffer.length`. -/
theorem C2_document_shape (link : DracoSemanticLink) (prim : Primitive)
    (cfg : DracoDecodeConfig) (root : Root)
    (hroot : buildDocument link prim cfg = some root)
    (hcfg : ∀ a ∈ cfg.attributes, a.offset + a.lenght ≤ cfg.estimateBufferSize) :
    root.buffers.length = 1
    ∧ (root.buffers.get? 0).map Buffer.byte_length
        = some cfg.estimateBufferSize
    ∧ root.buffer_views.length = cfg.attributes.length + 1
    ∧ root.accessors.length = cfg.attributes.length + 1
    ∧ ∀ v ∈ root.buffer_views,
        v.buffer = 0
        ∧ v.byte_offset.getD 0 + v.byte_length ≤ cfg.estimateBufferSize := by
  obtain ⟨indices, vs, accs, m, _, hba, hbufs, hviews, haccs, _⟩ :=
    buildDocument_some hroot
  obtain ⟨l1, l2, _⟩ := buildAttrs_lengths _ _ _ _ _ _ _ hba
  refine ⟨by rw [hbufs]; rfl, by rw [hbufs]; rfl, ?_, ?_, ?_⟩
  · rw [hviews]
    simp [l1]
  · rw [haccs]
    simp [l2]
  · rw [hviews]
    intro v hv
    rcases List.mem_cons.mp hv with rfl | hv'
    · exact ⟨rfl, by simp⟩
    · exact buildAttrs_views_bound _ _ _ _ _ _ _ _ hba hcfg v hv'

/-- Sample original accessors/primitive for the spec's two-attribute
(Position, Normal) example. -/
def samplePrim : Primitive :=
  { indices := some
      { data_type := .U16, count := 36, dimensions := .Scalar,
        min := none, max := none },
    attributes :=
      [(.Positions,
        { data_type := .F32, count := 8, dimensions := .Vec3,
          min := some (.arr [.num (-1), .num (-1), .num (-1)]),
          max := some (.arr [.num 1, .num 1, .num 1]) }),
       (.Normals,
        { data_type := .F32, count := 8, dimensions := .Vec3,
          min := none, max := none })] }

/-- The sample link map: codec index 0 → Positions, 1 → Normals. -/
def sampleLink : DracoSemanticLink :=
  { map := [(0, .Positions), (1, .Normals)], buffer_view := 0 }

/-- The sample decode configuration: 192 estimated bytes, two attribute
layouts filling them. -/
def sampleCfg : DracoDecodeConfig :=
  { estimateBufferSize := 192, attributes := [⟨0, 96⟩, ⟨96, 96⟩] }

/-- The document synthesized for the sample primitive. -/
def sampleRoot : Root :=
  (buildDocument sampleLink samplePrim sampleCfg).get (by rfl)

/-- Witness for C2: the shape property at the sample two-attribute
primitive. -/
theorem C2_document_shape_witness :
    sampleRoot.buffers.length = 1
    ∧ (sampleRoot.buffers.get? 0).map Buffer.byte_length
        = some sampleCfg.estimateBufferSize
    ∧ sampleRoot.buffer_views.length = sampleCfg.attributes.length + 1
    ∧ sampleRoot.accessors.length = sampleCfg.attributes.length + 1
    ∧ ∀ v ∈ sampleRoot.buffer_views,
        v.buffer = 0
        ∧ v.byte_offset.getD 0 + v.byte_length ≤ sampleCfg.estimateBufferSize :=
  C2_document_shape sampleLink samplePrim sampleCfg sampleRoot
    (Option.some_get _).symm (by decide)

/-! ## C3: attribute accessors copy the original accessor's metadata -/

/-- C3: for every codec attribute index `i` of a successful run, the
synthesized accessor in slot `i + 1` carries exactly the original
accessor's component type, element arity, count and min/max bounds (the
bounds are copied through `Value::from`, with a missing bound becoming JSON
`null`); the decoded bytes are not consulted — `build_document` never even
receives them. -/
theorem C3_attribute_accessors (link : DracoSemanticLink) (prim : Primitive)
    (cfg : DracoDecodeConfig) (root : Root) (i : Nat) (a : MeshAttribute)
    (hroot : buildDocument link prim cfg = some root)
    (hi : cfg.attributes.get? i = some a) :
    ∃ sem old, btreeGet link.map i = some sem ∧ prim.get sem = some old
      ∧ root.accessors.get? (i + 1) = some
          { buffer_view := some (i + 1), byte_offset := none,
            count := old.count, component_type := old.data_type,
            type_ := old.dimensions, min := some (jsonOfOption old.min),
            max := some (jsonOfOption old.max), normalized := false } := by
  obtain ⟨indices, vs, accs, m, _, hba, _, _, haccs, _⟩ :=
    buildDocument_some hroot
  obtain ⟨sem, old, hsem, hold, hacc⟩ :=
    buildAttrs_accessor _ _ _ _ _ _ _ hba i a hi
  refine ⟨sem, old, by simpa using hsem, hold, ?_⟩
  rw [haccs]
  simpa using hacc

/-- Witness for C3: the copy property at codec index 0 of the sample
primitive (the Positions attribute, whose bounds are present and copied). -/
theorem C3_attribute_accessors_witness :
    ∃ sem old, btreeGet sampleLink.map 0 = some sem
      ∧ samplePrim.get sem = some old
      ∧ sampleRoot.accessors.get? 1 = some
          { buffer_view := some 1, byte_offset := none,
            count := old.count, component_type := old.data_type,
            type_ := old.dimensions, min := some (jsonOfOption old.min),
            max := some (jsonOfOption old.max), normalized := false } :=
  C3_attribute_accessors sampleLink samplePrim sampleCfg sampleRoot 0 ⟨0, 96⟩
    (Option.some_get _).symm rfl

/-! ## C6: parse fallback on absent or malformed extensions -/

/-- C6: `DracoExtension::parse` reports not-applicable (`None`, not an
error) when the primitive has no extensions object or its extension map
lacks the `"KHR_draco_mesh_compression"` key, and likewise returns `None`
when the key is present but its value fails to deserialize (for example a
record missing `bufferView`); in each of those situations the handler
leaves the output slots unchanged, emitting no replacement. -/
theorem C6_parse_fallback :
    (parseResult none = some none)
    ∧ (∀ exts : List (String × Json),
        exts.find? (fun p => p.1 = "KHR_draco_mesh_compression") = none →
        parseResult (some exts) = some none)
    ∧ (∀ (exts : List (String × Json)) (p : String × Json),
        exts.find? (fun q => q.1 = "KHR_draco_mesh_compression") = some p →
        deserializeDracoExtensionValue p.2 = none →
        parseResult (some exts) = some none)
    ∧ (deserializeDracoExtensionValue (.obj [("attributes", .obj [])]) = none)
    ∧ (∀ (decodeFn : List Nat → Option DecodeResult)
        (exts : Option (List (String × Json))) (views : List SourceView)
        (bufs : List (List Nat)) (prim : Primitive) (outDoc : Option Root)
        (outData : Option (List (List Nat))),
        parseResult exts = some none →
        onGltfPrimitive decodeFn exts views bufs prim outDoc outData
          = some (outDoc, outData, [])) := by
  refine ⟨rfl, ?_, ?_, rfl, ?_⟩
  · intro exts h
    simp [parseResult, h]
  · intro exts p h hde
    simp [parseResult, h, hde]
  · intro decodeFn exts views bufs prim outDoc outData h
    simp [onGltfPrimitive, h]

/-- Witness for C6: a primitive whose only extension record is a
mesh-compression object missing `bufferView` parses to `None`. -/
theorem C6_parse_fallback_witness :
    parseResult
      (some [("KHR_draco_mesh_compression", .obj [("attributes", .obj [])])])
      = some none :=
  C6_parse_fallback.2.2.1
    [("KHR_draco_mesh_compression", .obj [("attributes", .obj [])])]
    ("KHR_draco_mesh_compression", .obj [("attributes", .obj [])]) rfl rfl

/-! ## C8: the handler emits nothing on parse or decode failure -/

theorem decodeMesh_fail_log (decodeFn : List Nat → Option DecodeResult)
    (views : List SourceView) (bv : Nat) (bufs : List (List Nat))
    (lg : List String)
    (h : decodeMesh decodeFn views bv bufs = some (none, lg)) :
    lg = ["draco decode fail!"] := by
  cases hv : views[bv]? with
  | none => simp [decodeMesh, hv] at h
  | some view =>
    cases hb : bufs[view.bufferIndex]? with
    | none => simp [decodeMesh, hv, hb] at h
    | some buf =>
      by_cases hr : view.offset + view.length ≤ buf.length
      · cases hd : decodeFn ((buf.drop view.offset).take view.length) with
        | none =>
          simp [decodeMesh, hv, hb, hr, hd] at h
          exact h.symm
        | some result => simp [decodeMesh, hv, hb, hr, hd] at h
      · simp [decodeMesh, hv, hb, hr] at h

/-- C8: when extension parsing yields no extension the handler returns with
the output document and output data slots holding their prior values and
logs nothing; when parsing succeeds but the decode reports failure the
handler likewise leaves both slots unchanged and the only diagnostic logged
is `"draco decode fail!"`. -/
theorem C8_handler_fallback (decodeFn : List Nat → Option DecodeResult)
    (exts : Option (List (String × Json))) (views : List SourceView)
    (bufs : List (List Nat)) (prim : Primitive) (outDoc : Option Root)
    (outData : Option (List (List Nat))) :
    (parseResult exts = some none →
      onGltfPrimitive decodeFn exts views bufs prim outDoc outData
        = some (outDoc, outData, []))
    ∧ (∀ (ext : DracoExtension) (lg : List String),
        parseResult exts = some (some ext) →
        decodeMesh decodeFn views ext.link.buffer_view bufs = some (none, lg) →
        onGltfPrimitive decodeFn exts views bufs prim outDoc outData
          = some (outDoc, outData, lg)
        ∧ lg = ["draco decode fail!"]) := by
  constructor
  · intro h
    simp [onGltfPrimitive, h]
  · intro ext lg hp hd
    refine ⟨?_, decodeMesh_fail_log decodeFn views ext.link.buffer_view bufs lg hd⟩
    simp [onGltfPrimitive, hp, hd]

/-- An extension record whose payload reference is view 0, for the C8
witness. -/
def c8json : Json :=
  .obj [("bufferView", .num 0),
    ("attributes", .obj [("POSITION", .num 0)])]

/-- Witness for C8: a decode function that always fails, on a primitive
whose extension record is well-formed; the handler leaves both slots empty
and logs the diagnostic. -/
theorem C8_handler_fallback_witness :
    onGltfPrimitive (fun _ => none)
      (some [("KHR_draco_mesh_compression", c8json)])
      [{ bufferIndex := 0, offset := 0, length := 0 }] [[]]
      { indices := none, attributes := [] } none none
      = some (none, none, ["draco decode fail!"]) :=
  ((C8_handler_fallback (fun _ => none)
      (some [("KHR_draco_mesh_compression", c8json)])
      [{ bufferIndex := 0, offset := 0, length := 0 }] [[]]
      { indices := none, attributes := [] } none none).2
    { link := { map := [(0, .Positions)], buffer_view := 0 } }
    ["draco decode fail!"] rfl rfl).1

/-! ## C9: the pipeline is deterministic -/

/-- C9: two invocations of the per-primitive handler on equal decode
functions, extension records, source views, source buffers, primitives and
prior output slots return equal results (the embedding carries no state
besides its explicit inputs, mirroring §5's no-shared-mutable-state
design). -/
theorem C9_deterministic (f f' : List Nat → Option DecodeResult)
    (e e' : Option (List (String × Json))) (v v' : List SourceView)
    (b b' : List (List Nat)) (p p' : Primitive) (d d' : Option Root)
    (r r' : Option (List (List Nat)))
    (hf : f = f') (he : e = e') (hv : v = v') (hb : b = b') (hp : p = p')
    (hd : d = d') (hr : r = r') :
    onGltfPrimitive f e v b p d r = onGltfPrimitive f' e' v' b' p' d' r' := by
  subst hf
  subst he
  subst hv
  subst hb
  subst hp
  subst hd
  subst hr
  rfl

/-- Witness for C9: two identical concrete invocations agree. -/
theorem C9_deterministic_witness :
    onGltfPrimitive (fun _ => none) none [] [] { indices := none, attributes := [] }
      none none
      = onGltfPrimitive (fun _ => none) none []
          [] { indices := none, attributes := [] } none none :=
  C9_deterministic (fun _ => none) (fun _ => none) none none [] [] [] []
    { indices := none, attributes := [] } { indices := none, attributes := [] }
    none none none none rfl rfl rfl rfl rfl rfl rfl

/-! ## C10: a successful decode yields exactly one output buffer -/

/-- C10: whenever `decode_mesh` returns successfully, the list of decoded
byte buffers it hands back is the decoder's single output buffer wrapped in
a singleton vector — its length is exactly one. -/
theorem C10_single_buffer (decodeFn : List Nat → Option DecodeResult)
    (views : List SourceView) (bv : Nat) (bufs : List (List Nat))
    (cfg : DracoDecodeConfig) (data : List (List Nat)) (lg : List String)
    (h : decodeMesh decodeFn views bv bufs = some (some (cfg, data), lg)) :
    data.length = 1 := by
  cases hv : views[bv]? with
  | none => simp [decodeMesh, hv] at h
  | some view =>
    cases hb : bufs[view.bufferIndex]? with
    | none => simp [decodeMesh, hv, hb] at h
    | some buf =>
      by_cases hr : view.offset + view.length ≤ buf.length
      · cases hd : decodeFn ((buf.drop view.offset).take view.length) with
        | none => simp [decodeMesh, hv, hb, hr, hd] at h
        | some result =>
          simp [decodeMesh, hv, hb, hr, hd] at h
          rw [← h.1.2]
          rfl
      · simp [decodeMesh, hv, hb, hr] at h

/-- Witness for C10: a decoder returning an empty configuration and byte
buffer still yields a singleton buffer list. -/
theorem C10_single_buffer_witness : ([([] : List Nat)]).length = 1 :=
  C10_single_buffer
    (fun _ => some (DecodeResult.mk (DracoDecodeConfig.mk 0 []) []))
    [{ bufferIndex := 0, offset := 0, length := 0 }] 0 [[]]
    (DracoDecodeConfig.mk 0 []) [[]] [] rfl

end BevyGltfDraco
